import Mathlib

/-!
Verification development for the LocalKeys secrets manager.

The JavaScript modules (vault.js, logger.js, license.js, http-server.js) are
shallowly embedded below.  JavaScript objects used as string-keyed maps are
modelled as association lists in insertion order; property assignment,
deletion and lookup are modelled by the aset, aerase and alookup operations.
Fields that JavaScript leaves undefined or null are modelled with Option.
-/

/-- Association list with string keys, modelling a plain JS object used as a
map (insertion order preserved; keys are unique in any state the code can
reach, and the operations below are faithful on such states). -/
abbrev JMap (α : Type) := List (String × α)

/-- Property lookup obj[k]: value of the first entry with key k (undefined,
i.e. none, when absent). -/
def alookup {α : Type} : JMap α → String → Option α
  | [], _ => none
  | a :: as, k => if a.1 == k then some a.2 else alookup as k

/-- Property deletion delete obj[k]: remove the entry with key k. -/
def aerase {α : Type} : JMap α → String → JMap α
  | [], _ => []
  | a :: as, k => if a.1 == k then aerase as k else a :: aerase as k

/-- Helper for aset: does an entry with key k exist. -/
def akeyMem {α : Type} : JMap α → String → Bool
  | [], _ => false
  | a :: as, k => a.1 == k || akeyMem as k

/-- Helper for aset: overwrite the entry with key k in place. -/
def aupdate {α : Type} (k : String) (v : α) : JMap α → JMap α
  | [] => []
  | a :: as => (if a.1 == k then (k, v) else a) :: aupdate k v as

/-- Property assignment obj[k] = v: overwrite in place when the key is
present, append otherwise. -/
def aset {α : Type} (l : JMap α) (k : String) (v : α) : JMap α :=
  if akeyMem l k then aupdate k v l else l ++ [(k, v)]

theorem alookup_aerase {α : Type} (l : JMap α) (k q : String) :
    alookup (aerase l k) q = if q = k then none else alookup l q := by
  induction l with
  | nil => by_cases hq : q = k <;> simp [aerase, alookup, hq]
  | cons a as ih =>
    by_cases hk : a.1 = k
    · have hbk : (a.1 == k) = true := by simp [hk]
      by_cases hq : q = k
      · simpa [aerase, hbk, hq] using ih
      · have hbq : (a.1 == q) = false := by
          simp only [beq_eq_false_iff_ne]
          intro hc; exact hq (by rw [← hc, hk])
        simpa [aerase, alookup, hbk, hbq, hq] using ih
    · have hbk : (a.1 == k) = false := by simp [hk]
      by_cases haq : a.1 = q
      · have hbq : (a.1 == q) = true := by simp [haq]
        have hq : ¬ (q = k) := by intro hc; exact hk (by rw [haq, hc])
        simp [aerase, alookup, hbk, hbq, hq]
      · have hbq : (a.1 == q) = false := by simp [haq]
        by_cases hq : q = k <;> simpa [aerase, alookup, hbk, hbq, hq] using ih

theorem alookup_aupdate_ne {α : Type} (l : JMap α) (k q : String) (v : α) (h : q ≠ k) :
    alookup (aupdate k v l) q = alookup l q := by
  induction l with
  | nil => simp [aupdate]
  | cons a as ih =>
    by_cases hk : a.1 = k
    · have hbk : (a.1 == k) = true := by simp [hk]
      have hbq : (a.1 == q) = false := by
        simp only [beq_eq_false_iff_ne]
        intro hc; exact h (by rw [← hc, hk])
      have hkq : (k == q) = false := by
        simp only [beq_eq_false_iff_ne]
        intro hc; exact h hc.symm
      simpa [aupdate, alookup, hbk, hbq, hkq] using ih
    · have hbk : (a.1 == k) = false := by simp [hk]
      by_cases haq : a.1 = q
      · have hbq : (a.1 == q) = true := by simp [haq]
        simp [aupdate, alookup, hbk, hbq]
      · have hbq : (a.1 == q) = false := by simp [haq]
        simpa [aupdate, alookup, hbk, hbq] using ih

theorem alookup_aupdate_self {α : Type} (l : JMap α) (k : String) (v : α)
    (h : akeyMem l k = true) : alookup (aupdate k v l) k = some v := by
  induction l with
  | nil => simp [akeyMem] at h
  | cons a as ih =>
    by_cases hk : a.1 = k
    · have hbk : (a.1 == k) = true := by simp [hk]
      simp [aupdate, alookup, hbk]
    · have hbk : (a.1 == k) = false := by simp [hk]
      have h2 : akeyMem as k = true := by simpa [akeyMem, hbk] using h
      simpa [aupdate, alookup, hbk] using ih h2

theorem alookup_append_single_ne {α : Type} (l : JMap α) (k q : String) (v : α) (h : q ≠ k) :
    alookup (l ++ [(k, v)]) q = alookup l q := by
  induction l with
  | nil =>
    have hkq : (k == q) = false := by
      simp only [beq_eq_false_iff_ne]
      intro hc; exact h hc.symm
    simp [alookup, hkq]
  | cons a as ih =>
    by_cases haq : a.1 = q
    · have hbq : (a.1 == q) = true := by simp [haq]
      simp [alookup, hbq]
    · have hbq : (a.1 == q) = false := by simp [haq]
      simpa [alookup, hbq] using ih

theorem alookup_append_single_self {α : Type} (l : JMap α) (k : String) (v : α)
    (h : akeyMem l k = false) : alookup (l ++ [(k, v)]) k = some v := by
  induction l with
  | nil => simp [alookup]
  | cons a as ih =>
    have hbk : (a.1 == k) = false := by
      cases hb : a.1 == k
      · rfl
      · simp [akeyMem, hb] at h
    have h2 : akeyMem as k = false := by simpa [akeyMem, hbk] using h
    simpa [alookup, hbk] using ih h2

theorem alookup_aset {α : Type} (l : JMap α) (k q : String) (v : α) :
    alookup (aset l k v) q = if q = k then some v else alookup l q := by
  unfold aset
  by_cases hm : akeyMem l k = true
  · by_cases hq : q = k
    · simp [hm, hq, alookup_aupdate_self l k v hm]
    · simp [hm, hq, alookup_aupdate_ne l k q v hq]
  · have hm2 : akeyMem l k = false := by
      cases hb : akeyMem l k
      · rfl
      · exact absurd hb hm
    by_cases hq : q = k
    · simp [hm2, hq, alookup_append_single_self l k v hm2]
    · simp [hm2, hq, alookup_append_single_ne l k q v hq]

theorem all_alookup {α : Type} {f : String × α → Bool} {l : JMap α} {k : String} {v : α}
    (hall : l.all f = true) (hl : alookup l k = some v) : f (k, v) = true := by
  induction l with
  | nil => simp [alookup] at hl
  | cons a as ih =>
    rw [List.all_cons, Bool.and_eq_true] at hall
    by_cases hk : a.1 = k
    · have hbk : (a.1 == k) = true := by simp [hk]
      simp only [alookup, hbk, if_true, Option.some.injEq] at hl
      have ha : (k, v) = a := by
        rw [← hk, ← hl]
      rw [ha]; exact hall.1
    · have hbk : (a.1 == k) = false := by simp [hk]
      simp only [alookup, hbk, if_false] at hl
      exact ih hall.2 hl

theorem mem_aerase {α : Type} {l : JMap α} {k : String} {x : String × α}
    (h : x ∈ aerase l k) : x ∈ l ∧ x.1 ≠ k := by
  induction l with
  | nil => simp [aerase] at h
  | cons a as ih =>
    by_cases hk : a.1 = k
    · have hbk : (a.1 == k) = true := by simp [hk]
      simp only [aerase, hbk, if_true] at h
      exact ⟨List.mem_cons_of_mem a (ih h).1, (ih h).2⟩
    · have hbk : (a.1 == k) = false := by simp [hk]
      simp only [aerase, hbk] at h
      have h2 : x = a ∨ x ∈ aerase as k := by
        simpa [List.mem_cons] using h
      rcases h2 with h1 | h1
      · subst h1
        exact ⟨List.mem_cons_self x as, hk⟩
      · exact ⟨List.mem_cons_of_mem a (ih h1).1, (ih h1).2⟩

theorem akeyMem_of_mem {α : Type} {l : JMap α} {k : String} {x : String × α}
    (h : x ∈ l) (hk : x.1 = k) : akeyMem l k = true := by
  induction l with
  | nil => simp at h
  | cons a as ih =>
    rcases List.mem_cons.mp h with h1 | h1
    · have : (a.1 == k) = true := by
        subst h1; simp [hk]
      simp [akeyMem, this]
    · simp [akeyMem, ih h1]

theorem mem_aupdate {α : Type} {l : JMap α} {k : String} {v : α} {x : String × α}
    (h : x ∈ aupdate k v l) : x = (k, v) ∨ (x ∈ l ∧ x.1 ≠ k) := by
  induction l with
  | nil => simp [aupdate] at h
  | cons a as ih =>
    simp only [aupdate, List.mem_cons] at h
    rcases h with h | h
    · by_cases hk : a.1 = k
      · have hbk : (a.1 == k) = true := by simp [hk]
        rw [hbk] at h
        exact Or.inl (by simpa using h)
      · have hbk : (a.1 == k) = false := by simp [hk]
        have h2 : x = a := by
          rw [hbk] at h
          simpa using h
        subst h2
        exact Or.inr ⟨List.mem_cons_self x as, hk⟩
    · rcases ih h with h2 | ⟨h2, h3⟩
      · exact Or.inl h2
      · exact Or.inr ⟨List.mem_cons_of_mem a h2, h3⟩

theorem mem_aset {α : Type} {l : JMap α} {k : String} {v : α} {x : String × α}
    (h : x ∈ aset l k v) : x = (k, v) ∨ (x ∈ l ∧ x.1 ≠ k) := by
  unfold aset at h
  by_cases hm : akeyMem l k = true
  · rw [if_pos hm] at h
    exact mem_aupdate h
  · have hm2 : akeyMem l k = false := by
      cases hb : akeyMem l k
      · rfl
      · exact absurd hb hm
    have h2 : x ∈ l ∨ x = (k, v) := by
      rw [hm2] at h
      simpa [List.mem_append] using h
    rcases h2 with h1 | h1
    · by_cases hk : x.1 = k
      · exact absurd (akeyMem_of_mem h1 hk) hm
      · exact Or.inr ⟨h1, hk⟩
    · exact Or.inl h1

/-! ## Vault data model (src/modules/vault.js) -/

/-- JS truthiness default a || b for optional strings: undefined, null and
the empty string are falsy. -/
def jsOrStr : Option String → String → String
  | none, d => d
  | some s, d => if s = "" then d else s

/-- One entry of a secret's history list (value, expiresAt, changedAt). -/
structure HistoryEntry where
  value : String
  expiresAt : Option String
  changedAt : String
deriving DecidableEq

/-- A stored secret: either the legacy bare-string form or the structured
form with optional expiry, timestamps and history. -/
inductive Secret where
  | legacy (value : String)
  | structured (value : String) (expiresAt : Option String)
      (createdAt : Option String) (updatedAt : Option String)
      (history : List HistoryEntry)
deriving DecidableEq

/-- oldValue = typeof s === "string" ? s : s.value -/
def secretValue : Secret → String
  | .legacy v => v
  | .structured v _ _ _ _ => v

/-- oldExpiresAt = typeof s === "object" ? s.expiresAt : null -/
def secretExpiresAt : Secret → Option String
  | .legacy _ => none
  | .structured _ e _ _ _ => e

/-- oldCreatedAt = typeof s === "object" ? s.createdAt : null -/
def secretCreatedAt : Secret → Option String
  | .legacy _ => none
  | .structured _ _ c _ _ => c

/-- s.updatedAt (undefined on the legacy string form). -/
def secretUpdatedAt : Secret → Option String
  | .legacy _ => none
  | .structured _ _ _ u _ => u

/-- oldHistory = typeof s === "object" && Array.isArray(s.history) ? s.history : [] -/
def secretHistory : Secret → List HistoryEntry
  | .legacy _ => []
  | .structured _ _ _ _ h => h

structure Project where
  name : String
  createdAt : String
  updatedAt : String
  secrets : JMap Secret
deriving DecidableEq

structure Favorites where
  projects : List String
  secrets : JMap (List String)
deriving DecidableEq

structure VaultDoc where
  version : String
  createdAt : String
  updatedAt : String
  projects : JMap Project
  favorites : Favorites
deriving DecidableEq

/-- Error kinds thrown by the vault (the code throws Error with a message;
the constructors carry the data interpolated into that message). -/
inductive VErr where
  | notInitialized
  | invalidPassword
  | locked
  | alreadyExists
  | projectNotFound (name : String)
  | projectConflict (name : String)
  | secretNotFound (key : String) (projectName : String)
  | outOfRange (index : Int)
deriving DecidableEq

/-- this.maxHistoryVersions = 50 -/
def maxHistoryVersions : Nat := 50

/-- The update of one secret performed by Vault.setSecret on an existing
secret: push the previous value to the history head only when (value,
expiresAt) actually changed, truncate the history to maxHistoryVersions;
otherwise leave the stored secret untouched. -/
def updateSecretEntry (existing : Secret) (value : String) (expiresAt : Option String)
    (now : String) : Secret :=
  let oldValue := secretValue existing
  let oldExpiresAt := secretExpiresAt existing
  let oldCreatedAt := secretCreatedAt existing
  let oldHistory := secretHistory existing
  if oldValue ≠ value ∨ oldExpiresAt ≠ expiresAt then
    let entry : HistoryEntry :=
      { value := oldValue, expiresAt := oldExpiresAt,
        changedAt := jsOrStr (secretUpdatedAt existing) now }
    let newHistory0 := entry :: oldHistory
    let newHistory :=
      if newHistory0.length > maxHistoryVersions then newHistory0.take maxHistoryVersions
      else newHistory0
    .structured value expiresAt (some (jsOrStr oldCreatedAt now)) (some now) newHistory
  else existing

/-- Vault.setSecret(projectName, key, value, expiresAt = null) on the
in-memory document of an unlocked vault (the locked case throws before
reaching this code and is handled at the server layer).  now is the
timestamp new Date().toISOString(). -/
def setSecret (doc : VaultDoc) (projectName key value : String) (expiresAt : Option String)
    (now : String) : Except VErr VaultDoc :=
  match alookup doc.projects projectName with
  | none => .error (.projectNotFound projectName)
  | some proj =>
    let newSecret : Secret :=
      match alookup proj.secrets key with
      | none => .structured value expiresAt (some now) (some now) []
      | some existing => updateSecretEntry existing value expiresAt now
    let proj1 : Project := { proj with secrets := aset proj.secrets key newSecret, updatedAt := now }
    .ok { doc with projects := aset doc.projects projectName proj1, updatedAt := now }

/-- Vault.deleteProject(name): remove the project and cascade the removal
through favorites.projects and favorites.secrets. -/
def deleteProject (doc : VaultDoc) (name : String) (now : String) : Except VErr VaultDoc :=
  match alookup doc.projects name with
  | none => .error (.projectNotFound name)
  | some _ =>
    let projects1 := aerase doc.projects name
    let favProjects1 := doc.favorites.projects.filter (fun p => !(p == name))
    let favSecrets1 := aerase doc.favorites.secrets name
    .ok { doc with
            projects := projects1,
            favorites := { projects := favProjects1, secrets := favSecrets1 },
            updatedAt := now }

/-- Vault.deleteSecret(projectName, key): remove the secret and cascade the
removal through favorites.secrets (dropping the per-project list when it
becomes empty). -/
def deleteSecret (doc : VaultDoc) (projectName key : String) (now : String) :
    Except VErr VaultDoc :=
  match alookup doc.projects projectName with
  | none => .error (.projectNotFound projectName)
  | some proj =>
    match alookup proj.secrets key with
    | none => .error (.secretNotFound key projectName)
    | some _ =>
      let proj1 : Project := { proj with secrets := aerase proj.secrets key, updatedAt := now }
      let favSecrets1 :=
        match alookup doc.favorites.secrets projectName with
        | none => doc.favorites.secrets
        | some favoriteKeys =>
          let nextKeys := favoriteKeys.filter (fun k2 => !(k2 == key))
          if nextKeys.length > 0 then aset doc.favorites.secrets projectName nextKeys
          else aerase doc.favorites.secrets projectName
      .ok { doc with
              projects := aset doc.projects projectName proj1,
              favorites := { doc.favorites with secrets := favSecrets1 },
              updatedAt := now }

/-- Vault.restoreSecretVersion(projectName, key, versionIndex): OutOfRange
when the index is negative or beyond the history, otherwise re-run
setSecret with the chosen history entry (which itself records the
previously current version). -/
def restoreSecretVersion (doc : VaultDoc) (projectName key : String) (versionIndex : Int)
    (now : String) : Except VErr VaultDoc :=
  match alookup doc.projects projectName with
  | none => .error (.projectNotFound projectName)
  | some proj =>
    match alookup proj.secrets key with
    | none => .error (.secretNotFound key projectName)
    | some s =>
      let history := secretHistory s
      if versionIndex < 0 ∨ (history.length : Int) ≤ versionIndex then
        .error (.outOfRange versionIndex)
      else
        let versionToRestore := history.getD versionIndex.toNat ⟨"", none, ""⟩
        setSecret doc projectName key versionToRestore.value versionToRestore.expiresAt now

/-- Favorites-projects part of Vault._normalizeData: keep only names of
existing projects, dropping duplicates (the seen set). -/
def normFavProjectsAux (projs : JMap Project) : List String → List String → List String
  | [], _ => []
  | p :: rest, seen =>
    if (alookup projs p).isSome = false then normFavProjectsAux projs rest seen
    else if seen.contains p then normFavProjectsAux projs rest seen
    else p :: normFavProjectsAux projs rest (p :: seen)

/-- Per-project key list normalization of Vault._normalizeData: keep only
keys of existing secrets, dropping duplicates (the seenKeys set). -/
def normKeysAux (secrets : JMap Secret) : List String → List String → List String
  | [], _ => []
  | k :: rest, seen =>
    if (alookup secrets k).isNone then normKeysAux secrets rest seen
    else if seen.contains k then normKeysAux secrets rest seen
    else k :: normKeysAux secrets rest (k :: seen)

/-- Favorites-secrets part of Vault._normalizeData: drop entries whose
project is missing, filter each key list against the project's secrets,
and keep an entry only when its normalized key list is non-empty. -/
def normFavSecrets (projs : JMap Project) : JMap (List String) → JMap (List String)
  | [] => []
  | (p, ks) :: rest =>
    match alookup projs p with
    | none => normFavSecrets projs rest
    | some proj =>
      let normalizedKeys := normKeysAux proj.secrets ks []
      if normalizedKeys.length > 0 then (p, normalizedKeys) :: normFavSecrets projs rest
      else normFavSecrets projs rest

/-- Vault._normalizeData, run on every unlock.  The projects/secrets pass of
the source only copies entries into fresh prototype-free objects (and skips
non-object entries, which the typed model cannot represent), so it is the
identity here; the favorites pass is modelled in full. -/
def normalizeData (doc : VaultDoc) : VaultDoc :=
  { doc with
      favorites :=
        { projects := normFavProjectsAux doc.projects doc.favorites.projects [],
          secrets := normFavSecrets doc.projects doc.favorites.secrets } }

/-- Spec invariant 2: favorites.projects is a subset of the project names
and each favorites.secrets[p] is a subset of the keys of p's secrets. -/
def favInvB (doc : VaultDoc) : Bool :=
  doc.favorites.projects.all (fun p => (alookup doc.projects p).isSome) &&
  doc.favorites.secrets.all (fun pk =>
    match alookup doc.projects pk.1 with
    | none => false
    | some proj => pk.2.all (fun k => (alookup proj.secrets k).isSome))

/-! ## Setup shared by several claims -/

theorem truncate_eq_take {α : Type} (l : List α) (n : Nat) :
    (if l.length > n then l.take n else l) = l.take n := by
  by_cases h : l.length > n
  · simp [h]
  · have h2 : l.length ≤ n := Nat.le_of_not_lt h
    simp [h, List.take_of_length_le h2]

/-- A sample project used to witness the claims on concrete inputs. -/
def sampleProject : Project :=
  { name := "app", createdAt := "2024-01-01T00:00:00.000Z",
    updatedAt := "2024-01-02T00:00:00.000Z",
    secrets := [("K", .structured "v1" none (some "2024-01-01T00:00:00.000Z")
      (some "2024-01-02T00:00:00.000Z") [])] }

/-- A sample project with no secrets, for the empty-key-set cases. -/
def emptyProject : Project :=
  { name := "empty", createdAt := "2024-01-01T00:00:00.000Z",
    updatedAt := "2024-01-01T00:00:00.000Z", secrets := [] }

/-- A sample vault document used to witness the claims on concrete inputs. -/
def sampleDoc : VaultDoc :=
  { version := "1.0.0", createdAt := "2024-01-01T00:00:00.000Z",
    updatedAt := "2024-01-02T00:00:00.000Z",
    projects := [("app", sampleProject), ("empty", emptyProject)],
    favorites := { projects := ["app"], secrets := [("app", ["K"])] } }

/-- Observation used by several claims: the secret stored at (p, k) in a
document. -/
def docSecretOf (doc : VaultDoc) (p k : String) : Option Secret :=
  (alookup doc.projects p).bind (fun proj => alookup proj.secrets k)

/-- Observation: the secret stored at (p, k) in the document produced by a
vault operation (none when the operation failed). -/
def vaultSecretOf : Except VErr VaultDoc → String → String → Option Secret
  | .error _, _, _ => none
  | .ok doc, p, k => docSecretOf doc p k

/-- C1: for an unlocked vault with existing project p, setSecret creates the
secret with empty history when the key is absent; when the key exists with
current pair (v0, e0) different from (value, expiresAt) it pushes
(v0, e0, previous updatedAt) onto the history head and truncates to
maxHistoryVersions = 50 entries; when the pair is unchanged the stored
secret (hence its history) is untouched. -/
theorem C1_setSecret_history (doc : VaultDoc) (p k v : String) (e : Option String)
    (now : String) (proj : Project) (hp : alookup doc.projects p = some proj) :
    (alookup proj.secrets k = none →
      vaultSecretOf (setSecret doc p k v e now) p k =
        some (.structured v e (some now) (some now) [])) ∧
    (∀ v0 e0 c0 u0 h0, alookup proj.secrets k = some (.structured v0 e0 c0 u0 h0) →
      ((¬ (v0 = v ∧ e0 = e)) → ∀ u, u0 = some u → u ≠ "" →
        vaultSecretOf (setSecret doc p k v e now) p k =
          some (.structured v e (some (jsOrStr c0 now)) (some now)
            ((({ value := v0, expiresAt := e0, changedAt := u } : HistoryEntry) :: h0).take
              maxHistoryVersions)) ∧
        ((({ value := v0, expiresAt := e0, changedAt := u } : HistoryEntry) :: h0).take
            maxHistoryVersions).length ≤ maxHistoryVersions) ∧
      ((v0 = v ∧ e0 = e) →
        vaultSecretOf (setSecret doc p k v e now) p k =
          some (.structured v0 e0 c0 u0 h0))) := by
  constructor
  · intro hnone
    simp only [setSecret, hp, hnone, vaultSecretOf, docSecretOf]
    simp [alookup_aset]
  · intro v0 e0 c0 u0 h0 hsome
    constructor
    · intro hne u hu hu2
      have hcond : v0 ≠ v ∨ e0 ≠ e := by
        rcases Decidable.not_and_iff_or_not.mp hne with h | h
        · exact Or.inl h
        · exact Or.inr h
      have hupd : updateSecretEntry (Secret.structured v0 e0 c0 u0 h0) v e now =
          .structured v e (some (jsOrStr c0 now)) (some now)
            ((({ value := v0, expiresAt := e0, changedAt := u } : HistoryEntry) :: h0).take
              maxHistoryVersions) := by
        simp only [updateSecretEntry, secretValue, secretExpiresAt, secretCreatedAt,
          secretUpdatedAt, secretHistory]
        rw [if_pos hcond, truncate_eq_take, hu]
        have h3 : jsOrStr (some u) now = u := by simp [jsOrStr, hu2]
        rw [h3]
      constructor
      · simp only [setSecret, hp, hsome, vaultSecretOf, docSecretOf, hupd]
        simp [alookup_aset]
      · rw [List.length_take]
        exact Nat.min_le_left _ _
    · intro heq
      have hcond : ¬ (v0 ≠ v ∨ e0 ≠ e) := by
        push_neg
        exact heq
      have hupd : updateSecretEntry (Secret.structured v0 e0 c0 u0 h0) v e now =
          .structured v0 e0 c0 u0 h0 := by
        simp only [updateSecretEntry, secretValue, secretExpiresAt, secretCreatedAt,
          secretUpdatedAt, secretHistory]
        rw [if_neg hcond]
      simp only [setSecret, hp, hsome, vaultSecretOf, docSecretOf, hupd]
      simp [alookup_aset]

/-- Witness for C1 at the sample document: key "NEW" is created with empty
history, writing "v2" over "v1" pushes the old pair, and rewriting "v1"
leaves the stored secret unchanged. -/
theorem C1_setSecret_history_witness :
    (vaultSecretOf (setSecret sampleDoc "app" "NEW" "x" none "t9") "app" "NEW" =
      some (.structured "x" none (some "t9") (some "t9") [])) ∧
    (vaultSecretOf (setSecret sampleDoc "app" "K" "v2" none "t9") "app" "K" =
      some (.structured "v2" none
        (some (jsOrStr (some "2024-01-01T00:00:00.000Z") "t9")) (some "t9")
        ((({ value := "v1", expiresAt := none,
             changedAt := "2024-01-02T00:00:00.000Z" } : HistoryEntry) :: []).take
           maxHistoryVersions)) ∧
      ((({ value := "v1", expiresAt := none,
           changedAt := "2024-01-02T00:00:00.000Z" } : HistoryEntry) :: []).take
         maxHistoryVersions).length ≤ maxHistoryVersions) ∧
    (vaultSecretOf (setSecret sampleDoc "app" "K" "v1" none "t9") "app" "K" =
      some (.structured "v1" none (some "2024-01-01T00:00:00.000Z")
        (some "2024-01-02T00:00:00.000Z") [])) := by
  refine ⟨?_, ?_, ?_⟩
  · exact (C1_setSecret_history sampleDoc "app" "NEW" "x" none "t9" sampleProject rfl).1 rfl
  · exact ((C1_setSecret_history sampleDoc "app" "K" "v2" none "t9" sampleProject rfl).2
      "v1" none (some "2024-01-01T00:00:00.000Z") (some "2024-01-02T00:00:00.000Z") [] rfl).1
      (by decide) "2024-01-02T00:00:00.000Z" rfl (by decide)
  · exact ((C1_setSecret_history sampleDoc "app" "K" "v1" none "t9" sampleProject rfl).2
      "v1" none (some "2024-01-01T00:00:00.000Z") (some "2024-01-02T00:00:00.000Z") [] rfl).2
      ⟨rfl, rfl⟩

/-! ## C3: favorites integrity -/

theorem alookup_eq_none_of_mem {α : Type} {l : JMap α} {k : String} {x : String × α}
    (h : alookup l k = none) (hx : x ∈ l) : x.1 ≠ k := by
  induction l with
  | nil => simp at hx
  | cons a as ih =>
    have hbk : (a.1 == k) = false := by
      cases hb : a.1 == k
      · rfl
      · simp [alookup, hb] at h
    have h2 : alookup as k = none := by
      simpa [alookup, hbk] using h
    rcases List.mem_cons.mp hx with rfl | hx2
    · simpa using hbk
    · exact ih h2 hx2

theorem favInv_projects_entry {doc : VaultDoc} (hInv : favInvB doc = true)
    {p : String} (hmem : p ∈ doc.favorites.projects) :
    (alookup doc.projects p).isSome = true := by
  have hsplit := hInv
  rw [favInvB, Bool.and_eq_true] at hsplit
  exact List.all_eq_true.mp hsplit.1 p hmem

theorem favInv_secrets_entry {doc : VaultDoc} (hInv : favInvB doc = true)
    {pk : String × List String} (hmem : pk ∈ doc.favorites.secrets) :
    ∃ proj, alookup doc.projects pk.1 = some proj ∧
      pk.2.all (fun k => (alookup proj.secrets k).isSome) = true := by
  have hsplit := hInv
  rw [favInvB, Bool.and_eq_true] at hsplit
  have h3 := List.all_eq_true.mp hsplit.2 pk hmem
  cases hl : alookup doc.projects pk.1 with
  | none => simp only [hl] at h3; exact absurd h3 (by simp)
  | some proj =>
    refine ⟨proj, rfl, ?_⟩
    simpa only [hl] using h3

theorem favInv_secrets_alookup {doc : VaultDoc} (hInv : favInvB doc = true)
    {pn : String} {ks : List String} (h : alookup doc.favorites.secrets pn = some ks) :
    ∃ proj, alookup doc.projects pn = some proj ∧
      ks.all (fun k => (alookup proj.secrets k).isSome) = true := by
  have hsplit := hInv
  rw [favInvB, Bool.and_eq_true] at hsplit
  have h3 := all_alookup hsplit.2 h
  cases hl : alookup doc.projects pn with
  | none => simp only [hl] at h3; exact absurd h3 (by simp)
  | some proj =>
    refine ⟨proj, rfl, ?_⟩
    simpa only [hl] using h3

theorem normFavProjectsAux_mem (projs : JMap Project) :
    ∀ (l seen : List String) (p : String), p ∈ normFavProjectsAux projs l seen →
      (alookup projs p).isSome = true := by
  intro l
  induction l with
  | nil => intro seen p h; simp [normFavProjectsAux] at h
  | cons q rest ih =>
    intro seen p h
    simp only [normFavProjectsAux] at h
    split_ifs at h with h1 h2
    · exact ih seen p h
    · exact ih seen p h
    · rcases List.mem_cons.mp h with rfl | h3
      · cases hq : (alookup projs p).isSome
        · exact absurd hq h1
        · rfl
      · exact ih (q :: seen) p h3

theorem normKeysAux_mem (secrets : JMap Secret) :
    ∀ (l seen : List String) (k : String), k ∈ normKeysAux secrets l seen →
      (alookup secrets k).isSome = true := by
  intro l
  induction l with
  | nil => intro seen k h; simp [normKeysAux] at h
  | cons q rest ih =>
    intro seen k h
    simp only [normKeysAux] at h
    split_ifs at h with h1 h2
    · exact ih seen k h
    · exact ih seen k h
    · rcases List.mem_cons.mp h with rfl | h3
      · cases hq : alookup secrets k with
        | none => exact absurd (by rw [hq]; rfl) h1
        | some v => rfl
      · exact ih (q :: seen) k h3

theorem normFavSecrets_mem (projs : JMap Project) :
    ∀ (fs : JMap (List String)) (x : String × List String), x ∈ normFavSecrets projs fs →
      ∃ proj, alookup projs x.1 = some proj ∧
        x.2.all (fun k => (alookup proj.secrets k).isSome) = true := by
  intro fs
  induction fs with
  | nil => intro x h; simp [normFavSecrets] at h
  | cons a rest ih =>
    intro x h
    obtain ⟨p, ks⟩ := a
    cases hl : alookup projs p with
    | none =>
      simp only [normFavSecrets, hl] at h
      exact ih x h
    | some proj =>
      simp only [normFavSecrets, hl] at h
      by_cases h2 : (normKeysAux proj.secrets ks []).length > 0
      · rw [if_pos h2] at h
        rcases List.mem_cons.mp h with rfl | h3
        · refine ⟨proj, hl, ?_⟩
          rw [List.all_eq_true]
          intro k hk
          exact normKeysAux_mem proj.secrets ks [] k hk
        · exact ih x h3
      · rw [if_neg h2] at h
        exact ih x h

theorem favInvB_normalizeData (doc : VaultDoc) : favInvB (normalizeData doc) = true := by
  rw [favInvB, Bool.and_eq_true]
  constructor
  · rw [List.all_eq_true]
    intro p hp
    simp only [normalizeData] at hp ⊢
    exact normFavProjectsAux_mem doc.projects doc.favorites.projects [] p hp
  · rw [List.all_eq_true]
    intro pk hpk
    simp only [normalizeData] at hpk ⊢
    obtain ⟨proj, h1, h2⟩ := normFavSecrets_mem doc.projects doc.favorites.secrets pk hpk
    rw [h1]
    exact h2

theorem favInvB_deleteProject (doc : VaultDoc) (name now : String) (hInv : favInvB doc = true)
    (doc1 : VaultDoc) (h : deleteProject doc name now = .ok doc1) : favInvB doc1 = true := by
  rw [deleteProject] at h
  cases hl : alookup doc.projects name with
  | none => rw [hl] at h; exact absurd h (by simp)
  | some proj0 =>
    rw [hl] at h
    have hdoc : doc1 = { doc with
        projects := aerase doc.projects name,
        favorites := { projects := doc.favorites.projects.filter (fun p => !(p == name)),
                       secrets := aerase doc.favorites.secrets name },
        updatedAt := now } := by
      injection h with h2
      exact h2.symm
    subst hdoc
    rw [favInvB, Bool.and_eq_true]
    constructor
    · rw [List.all_eq_true]
      intro p hp
      simp only [] at hp ⊢
      have hp2 := List.mem_filter.mp hp
      have hpn : p ≠ name := by simpa using hp2.2
      rw [alookup_aerase, if_neg hpn]
      exact favInv_projects_entry hInv hp2.1
    · rw [List.all_eq_true]
      intro pk hpk
      simp only [] at hpk ⊢
      obtain ⟨hmem, hne⟩ := mem_aerase hpk
      obtain ⟨proj, h1, h2⟩ := favInv_secrets_entry hInv hmem
      rw [alookup_aerase, if_neg hne, h1]
      exact h2

theorem favInvB_deleteSecret (doc : VaultDoc) (pn sk now : String) (hInv : favInvB doc = true)
    (doc1 : VaultDoc) (h : deleteSecret doc pn sk now = .ok doc1) : favInvB doc1 = true := by
  rw [deleteSecret] at h
  cases hl : alookup doc.projects pn with
  | none =>
    simp only [hl] at h
    exact absurd h (by simp)
  | some proj =>
    simp only [hl] at h
    cases hs : alookup proj.secrets sk with
    | none =>
      simp only [hs] at h
      exact absurd h (by simp)
    | some s0 =>
      simp only [hs] at h
      -- name the updated project
      set proj1 : Project := { proj with secrets := aerase proj.secrets sk, updatedAt := now }
        with hproj1
      cases hf : alookup doc.favorites.secrets pn with
      | none =>
        simp only [hf] at h
        have hdoc : doc1 = { doc with
            projects := aset doc.projects pn proj1,
            favorites := { doc.favorites with secrets := doc.favorites.secrets },
            updatedAt := now } := by
          injection h with h2
          exact h2.symm
        subst hdoc
        rw [favInvB, Bool.and_eq_true]
        constructor
        · rw [List.all_eq_true]
          intro p hp
          simp only [] at hp ⊢
          rw [alookup_aset]
          by_cases hq : p = pn
          · simp [hq]
          · rw [if_neg hq]
            exact favInv_projects_entry hInv hp
        · rw [List.all_eq_true]
          intro pk hpk
          simp only [] at hpk ⊢
          have hne : pk.1 ≠ pn := alookup_eq_none_of_mem hf hpk
          obtain ⟨proj2, h1, h2⟩ := favInv_secrets_entry hInv hpk
          rw [alookup_aset, if_neg hne, h1]
          exact h2
      | some favoriteKeys =>
        simp only [hf] at h
        by_cases hn : (favoriteKeys.filter (fun k2 => !(k2 == sk))).length > 0
        · rw [if_pos hn] at h
          have hdoc : doc1 = { doc with
              projects := aset doc.projects pn proj1,
              favorites := { doc.favorites with
                secrets := aset doc.favorites.secrets pn
                  (favoriteKeys.filter (fun k2 => !(k2 == sk))) },
              updatedAt := now } := by
            injection h with h2
            exact h2.symm
          subst hdoc
          rw [favInvB, Bool.and_eq_true]
          constructor
          · rw [List.all_eq_true]
            intro p hp
            simp only [] at hp ⊢
            rw [alookup_aset]
            by_cases hq : p = pn
            · simp [hq]
            · rw [if_neg hq]
              exact favInv_projects_entry hInv hp
          · rw [List.all_eq_true]
            intro pk hpk
            simp only [] at hpk ⊢
            rcases mem_aset hpk with rfl | ⟨hmem, hne⟩
            · -- the rewritten favorites entry for pn itself
              simp only []
              rw [alookup_aset, if_pos rfl]
              rw [List.all_eq_true]
              intro k hk
              have hk2 := List.mem_filter.mp hk
              have hkne : k ≠ sk := by simpa using hk2.2
              obtain ⟨proj2, h1, h2⟩ := favInv_secrets_alookup hInv hf
              have h3 : proj2 = proj := by
                rw [hl] at h1
                injection h1 with h4
                exact h4.symm
              subst h3
              have h5 := List.all_eq_true.mp h2 k hk2.1
              rw [hproj1]
              simp only []
              rw [alookup_aerase, if_neg hkne]
              exact h5
            · obtain ⟨proj2, h1, h2⟩ := favInv_secrets_entry hInv hmem
              rw [alookup_aset, if_neg hne, h1]
              exact h2
        · rw [if_neg hn] at h
          have hdoc : doc1 = { doc with
              projects := aset doc.projects pn proj1,
              favorites := { doc.favorites with
                secrets := aerase doc.favorites.secrets pn },
              updatedAt := now } := by
            injection h with h2
            exact h2.symm
          subst hdoc
          rw [favInvB, Bool.and_eq_true]
          constructor
          · rw [List.all_eq_true]
            intro p hp
            simp only [] at hp ⊢
            rw [alookup_aset]
            by_cases hq : p = pn
            · simp [hq]
            · rw [if_neg hq]
              exact favInv_projects_entry hInv hp
          · rw [List.all_eq_true]
            intro pk hpk
            simp only [] at hpk ⊢
            obtain ⟨hmem, hne⟩ := mem_aerase hpk
            obtain ⟨proj2, h1, h2⟩ := favInv_secrets_entry hInv hmem
            rw [alookup_aset, if_neg hne, h1]
            exact h2

/-- C3: after a successful deleteProject or deleteSecret on a document
satisfying the favorites invariant, and after the normalization performed
on unlock (unconditionally), no favorites entry points to a missing
target: favorites.projects is a subset of the project names and each
favorites.secrets[p] is a subset of the secret keys of p. -/
theorem C3_favorites_integrity (doc : VaultDoc) (pn sk now : String) :
    (favInvB doc = true → ∀ doc1, deleteProject doc pn now = .ok doc1 → favInvB doc1 = true) ∧
    (favInvB doc = true → ∀ doc1, deleteSecret doc pn sk now = .ok doc1 → favInvB doc1 = true) ∧
    favInvB (normalizeData doc) = true := by
  refine ⟨?_, ?_, favInvB_normalizeData doc⟩
  · intro hInv doc1 h
    exact favInvB_deleteProject doc pn now hInv doc1 h
  · intro hInv doc1 h
    exact favInvB_deleteSecret doc pn sk now hInv doc1 h

/-- Witness for C3 at the sample document. -/
theorem C3_favorites_integrity_witness :
    favInvB sampleDoc = true ∧
    (∃ doc1, deleteProject sampleDoc "app" "t9" = .ok doc1 ∧ favInvB doc1 = true) ∧
    (∃ doc1, deleteSecret sampleDoc "app" "K" "t9" = .ok doc1 ∧ favInvB doc1 = true) ∧
    favInvB (normalizeData sampleDoc) = true := by
  refine ⟨by decide, ⟨_, rfl, ?_⟩, ⟨_, rfl, ?_⟩,
    (C3_favorites_integrity sampleDoc "app" "K" "t9").2.2⟩
  · exact (C3_favorites_integrity sampleDoc "app" "K" "t9").1 (by decide) _ rfl
  · exact (C3_favorites_integrity sampleDoc "app" "K" "t9").2.1 (by decide) _ rfl

/-! ## C4: restoreSecretVersion -/

theorem setSecret_current (doc : VaultDoc) (p k v : String) (e : Option String) (now : String)
    (proj : Project) (s : Secret) (hp : alookup doc.projects p = some proj)
    (hs : alookup proj.secrets k = some s) :
    ∃ s1, vaultSecretOf (setSecret doc p k v e now) p k = some s1 ∧
      secretValue s1 = v ∧ secretExpiresAt s1 = e := by
  have hset : vaultSecretOf (setSecret doc p k v e now) p k =
      some (updateSecretEntry s v e now) := by
    simp only [setSecret, hp, hs, vaultSecretOf, docSecretOf]
    simp [alookup_aset]
  by_cases hc : secretValue s ≠ v ∨ secretExpiresAt s ≠ e
  · refine ⟨updateSecretEntry s v e now, hset, ?_, ?_⟩
    · simp only [updateSecretEntry]
      rw [if_pos hc]
      rfl
    · simp only [updateSecretEntry]
      rw [if_pos hc]
      rfl
  · have hc2 : secretValue s = v ∧ secretExpiresAt s = e := by
      push_neg at hc
      exact hc
    have hupd : updateSecretEntry s v e now = s := by
      simp only [updateSecretEntry]
      rw [if_neg hc]
    exact ⟨s, by rw [hset, hupd], hc2.1, hc2.2⟩

/-- Project used by the C4 concrete scenario S2: current value "v3",
history ["v2", "v1"]. -/
def restoreProject : Project :=
  { name := "app", createdAt := "t0", updatedAt := "t3",
    secrets := [("K", .structured "v3" none (some "t0") (some "t3")
      [{ value := "v2", expiresAt := none, changedAt := "t2" },
       { value := "v1", expiresAt := none, changedAt := "t1" }])] }

/-- Document used by the C4 concrete scenario S2. -/
def restoreDoc : VaultDoc :=
  { version := "1.0.0", createdAt := "t0", updatedAt := "t3",
    projects := [("app", restoreProject)],
    favorites := { projects := [], secrets := [] } }

/-- C4: restoreSecretVersion fails with OutOfRange when the index is
negative or not below the history length; for a valid index it re-runs
setSecret with history[index].value and history[index].expiresAt, making
them the current pair; concretely, with current "v3" and history
["v2", "v1"], restoring index 1 makes the current value "v1" and the
history ["v3", "v2", "v1"]. -/
theorem C4_restoreSecretVersion (doc : VaultDoc) (p k : String) (idx : Int) (now : String)
    (proj : Project) (s : Secret)
    (hp : alookup doc.projects p = some proj) (hs : alookup proj.secrets k = some s) :
    ((idx < 0 ∨ ((secretHistory s).length : Int) ≤ idx) →
      restoreSecretVersion doc p k idx now = .error (.outOfRange idx)) ∧
    (¬ (idx < 0 ∨ ((secretHistory s).length : Int) ≤ idx) →
      restoreSecretVersion doc p k idx now =
        setSecret doc p k
          ((secretHistory s).getD idx.toNat { value := "", expiresAt := none, changedAt := "" }).value
          ((secretHistory s).getD idx.toNat { value := "", expiresAt := none, changedAt := "" }).expiresAt
          now ∧
      ∃ s1, vaultSecretOf (restoreSecretVersion doc p k idx now) p k = some s1 ∧
        secretValue s1 =
          ((secretHistory s).getD idx.toNat { value := "", expiresAt := none, changedAt := "" }).value ∧
        secretExpiresAt s1 =
          ((secretHistory s).getD idx.toNat { value := "", expiresAt := none, changedAt := "" }).expiresAt) ∧
    vaultSecretOf (restoreSecretVersion restoreDoc "app" "K" 1 "t4") "app" "K" =
      some (.structured "v1" none (some "t0") (some "t4")
        [{ value := "v3", expiresAt := none, changedAt := "t3" },
         { value := "v2", expiresAt := none, changedAt := "t2" },
         { value := "v1", expiresAt := none, changedAt := "t1" }]) := by
  refine ⟨?_, ?_, by decide⟩
  · intro hcond
    simp only [restoreSecretVersion, hp, hs]
    rw [if_pos hcond]
  · intro hcond
    have hres : restoreSecretVersion doc p k idx now =
        setSecret doc p k
          ((secretHistory s).getD idx.toNat { value := "", expiresAt := none, changedAt := "" }).value
          ((secretHistory s).getD idx.toNat { value := "", expiresAt := none, changedAt := "" }).expiresAt
          now := by
      simp only [restoreSecretVersion, hp, hs]
      rw [if_neg hcond]
    refine ⟨hres, ?_⟩
    rw [hres]
    exact setSecret_current doc p k _ _ now proj s hp hs

/-- Witness for C4: at the scenario document, index 5 is rejected and
index 1 is restored. -/
theorem C4_restoreSecretVersion_witness :
    restoreSecretVersion restoreDoc "app" "K" 5 "t4" = .error (.outOfRange 5) ∧
    (restoreSecretVersion restoreDoc "app" "K" 1 "t4" =
      setSecret restoreDoc "app" "K" "v1" none "t4" ∧
    ∃ s1, vaultSecretOf (restoreSecretVersion restoreDoc "app" "K" 1 "t4") "app" "K" = some s1 ∧
      secretValue s1 = "v1" ∧ secretExpiresAt s1 = none) := by
  constructor
  · exact (C4_restoreSecretVersion restoreDoc "app" "K" 5 "t4" restoreProject
      (.structured "v3" none (some "t0") (some "t3")
        [{ value := "v2", expiresAt := none, changedAt := "t2" },
         { value := "v1", expiresAt := none, changedAt := "t1" }]) rfl rfl).1 (by decide)
  · exact (C4_restoreSecretVersion restoreDoc "app" "K" 1 "t4" restoreProject
      (.structured "v3" none (some "t0") (some "t3")
        [{ value := "v2", expiresAt := none, changedAt := "t2" },
         { value := "v1", expiresAt := none, changedAt := "t1" }]) rfl rfl).2.1 (by decide)

/-! ## C2: unlock with a wrong password

The crypto primitives live in CryptoUtil (src/modules/crypto.js, not part
of the sources provided), so they are modelled from the spec: deriveKey is
a deterministic KDF producing a key determined by (password, salt) and
distinct for distinct passwords, and decryptJson is an AEAD that MUST fail
loudly under any key other than the encryption key. -/

/-- Modelled from the spec: the 32-byte key derived by
CryptoUtil.deriveKey(password, salt); represented symbolically by the pair
that determines it. -/
structure DerivedKey where
  password : String
  salt : String
deriving DecidableEq

/-- Modelled from the spec: CryptoUtil.deriveKey. -/
def deriveKey (password salt : String) : DerivedKey := ⟨password, salt⟩

/-- Modelled from the spec: an AEAD envelope nonce-ciphertext-tag holding
an encrypted VaultDocument; represented by the key it was sealed under and
the plaintext document. -/
structure Cipher where
  key : DerivedKey
  payload : VaultDoc
deriving DecidableEq

/-- Modelled from the spec: CryptoUtil.decryptJson; fails loudly (none) on
auth-tag mismatch, i.e. under any key other than the sealing key. -/
def decryptJson (c : Cipher) (k : DerivedKey) : Option VaultDoc :=
  if c.key = k then some c.payload else none

/-- The vault files on disk: salt.txt and vault.enc (none = file absent). -/
structure VaultFiles where
  salt : Option String
  vaultEnc : Option Cipher

/-- The in-memory fields of the Vault instance touched by unlock/lock. -/
structure VaultState where
  isLocked : Bool
  data : Option VaultDoc
  key : Option DerivedKey
deriving DecidableEq

/-- Vault.unlock(password): throws when the files are absent; derives the
key, then decrypts vault.enc; on decryption failure clears both the key
and the data before reporting Invalid password; on success normalizes the
document and unlocks.  (The chmod-0600 repair steps touch only file modes
and are not represented.) -/
def unlock (files : VaultFiles) (password : String) (st : VaultState) :
    VaultState × Option VErr :=
  match files.salt, files.vaultEnc with
  | none, _ => (st, some .notInitialized)
  | _, none => (st, some .notInitialized)
  | some salt, some enc =>
    let key := deriveKey password salt
    match decryptJson enc key with
    | some doc => ({ isLocked := false, data := some (normalizeData doc), key := some key }, none)
    | none => ({ st with key := none, data := none }, some .invalidPassword)

/-- C2: when the vault files were written under password P, unlocking a
locked store with any other password fails with InvalidPassword and leaves
the store locked with no derived key and no plaintext document in memory. -/
theorem C2_unlock_wrong_password (files : VaultFiles) (saltv : String) (doc : VaultDoc)
    (P Q : String) (st : VaultState)
    (hsalt : files.salt = some saltv)
    (henc : files.vaultEnc = some { key := deriveKey P saltv, payload := doc })
    (hne : Q ≠ P) (hlocked : st.isLocked = true) :
    (unlock files Q st).2 = some .invalidPassword ∧
    (unlock files Q st).1.isLocked = true ∧
    (unlock files Q st).1.key = none ∧
    (unlock files Q st).1.data = none := by
  have hkey : decryptJson { key := deriveKey P saltv, payload := doc } (deriveKey Q saltv) =
      none := by
    rw [decryptJson, if_neg]
    intro hc
    simp only [deriveKey, DerivedKey.mk.injEq] at hc
    exact hne hc.1.symm
  simp only [unlock, hsalt, henc, hkey]
  exact ⟨trivial, hlocked, trivial, trivial⟩

/-- Witness for C2 on concrete files sealed under "hunter2". -/
theorem C2_unlock_wrong_password_witness :
    (unlock { salt := some "ab",
              vaultEnc := some { key := deriveKey "hunter2" "ab", payload := sampleDoc } }
      "HUNTER2" { isLocked := true, data := none, key := none }).2 =
        some .invalidPassword ∧
    (unlock { salt := some "ab",
              vaultEnc := some { key := deriveKey "hunter2" "ab", payload := sampleDoc } }
      "HUNTER2" { isLocked := true, data := none, key := none }).1.isLocked = true ∧
    (unlock { salt := some "ab",
              vaultEnc := some { key := deriveKey "hunter2" "ab", payload := sampleDoc } }
      "HUNTER2" { isLocked := true, data := none, key := none }).1.key = none ∧
    (unlock { salt := some "ab",
              vaultEnc := some { key := deriveKey "hunter2" "ab", payload := sampleDoc } }
      "HUNTER2" { isLocked := true, data := none, key := none }).1.data = none :=
  C2_unlock_wrong_password _ "ab" sampleDoc "hunter2" "HUNTER2" _ rfl rfl (by decide) rfl

/-! ## Logger (src/modules/logger.js)

Logger._maskSensitiveInfo applies four global regex replacements in order.
The passes below embed the semantics of the JS regex engine for these four
patterns: matches are searched left to right, the engine advances one
character on failure and resumes after the matched text on success; word
boundaries test the JS word class [A-Za-z0-9_]; the character classes are
greedy and give characters back to a later mandatory atom only at the end
of input.  Each pass carries a fuel argument bounded below by the input
length (every step consumes at least one character, so the fuel never runs
out when initialized with the length). -/

def isAlnumAscii (c : Char) : Bool :=
  ('a' ≤ c && c ≤ 'z') || ('A' ≤ c && c ≤ 'Z') || ('0' ≤ c && c ≤ '9')

/-- The JS regex word class \w = [A-Za-z0-9_], used by word boundaries. -/
def isWordChar (c : Char) : Bool := isAlnumAscii c || c == '_'

/-- The JS regex class \s (whitespace). -/
def isJsSpace (c : Char) : Bool :=
  c == ' ' || c == '\t' || c == '\n' || c == '\r' ||
  c == '\u000B' || c == '\u000C' || c == ' ' || c == ' ' ||
  (' ' ≤ c && c ≤ ' ') || c == ' ' || c == ' ' ||
  c == ' ' || c == ' ' || c == '　' || c == '﻿'

/-- Word boundary between the previous character (none at the start of the
string) and a word character. -/
def boundaryBefore : Option Char → Bool
  | none => true
  | some c => !isWordChar c

/-- Word boundary between a word character and the rest of the input. -/
def boundaryAfter : List Char → Bool
  | [] => true
  | c :: _ => !isWordChar c

/-- Greedy span: the maximal prefix satisfying p, and the rest. -/
def spanP (p : Char → Bool) : List Char → List Char × List Char
  | [] => ([], [])
  | c :: cs =>
    if p c then
      let r := spanP p cs
      (c :: r.1, r.2)
    else ([], c :: cs)

/-- Modelled from the spec: CryptoUtil.maskSensitiveValue(s, keep)
(crypto.js is not among the provided sources) keeps the first keep
characters and replaces the remainder with asterisks. -/
def maskSensitiveValue (s : List Char) (keep : Nat) : List Char :=
  s.take keep ++ List.replicate (s.length - keep) '*'

/-- Pass 1: the global regex for word-bounded sk- keys with 20 or more
following alphanumeric characters; each match keeps its first 6 characters
(maskSensitiveValue(match, 6)). -/
def maskSkAux (prev : Option Char) : Nat → List Char → List Char
  | 0, l => l
  | _ + 1, [] => []
  | fuel + 1, 's' :: 'k' :: '-' :: rest =>
    if boundaryBefore prev then
      let run := spanP isAlnumAscii rest
      if decide (run.1.length ≥ 20) && boundaryAfter run.2 then
        maskSensitiveValue ('s' :: 'k' :: '-' :: run.1) 6 ++
          maskSkAux (some (run.1.getLastD '-')) fuel run.2
      else 's' :: maskSkAux (some 's') fuel ('k' :: '-' :: rest)
    else 's' :: maskSkAux (some 's') fuel ('k' :: '-' :: rest)
  | fuel + 1, c :: cs => c :: maskSkAux (some c) fuel cs

/-- Pass 2: the global regex for remaining word-bounded alphanumeric runs
of 32 or more characters; each match keeps its first 4 characters. -/
def maskLongAux (prev : Option Char) : Nat → List Char → List Char
  | 0, l => l
  | _ + 1, [] => []
  | fuel + 1, c :: cs =>
    if isAlnumAscii c then
      let run := spanP isAlnumAscii (c :: cs)
      let masked :=
        if boundaryBefore prev && decide (run.1.length ≥ 32) && boundaryAfter run.2 then
          maskSensitiveValue run.1 4
        else run.1
      masked ++ maskLongAux (some (run.1.getLastD c)) fuel run.2
    else c :: maskLongAux (some c) fuel cs

/-- ASCII lowering, the canonicalization the i flag performs on the ASCII
letters of these patterns. -/
def toLowerAscii (c : Char) : Char :=
  if 'A' ≤ c && c ≤ 'Z' then Char.ofNat (c.toNat + 32) else c

/-- Case-insensitive literal match: returns the matched original
characters and the rest. -/
def matchCI : List Char → List Char → Option (List Char × List Char)
  | [], rest => some ([], rest)
  | _ :: _, [] => none
  | p :: ps, c :: cs =>
    if toLowerAscii c == p then
      match matchCI ps cs with
      | none => none
      | some (m, r) => some (c :: m, r)
    else none

/-- The regex class [:\s=] of the password and token rules. -/
def isPwClassChar (c : Char) : Bool := c == ':' || c == '=' || isJsSpace c

/-- Splits a list around its last non-space character (before, it, after);
none when every character is whitespace. -/
def splitLastNonSpace : List Char → Option (List Char × Char × List Char)
  | [] => none
  | c :: cs =>
    match splitLastNonSpace cs with
    | some (b, x, a) => some (c :: b, x, a)
    | none => if !isJsSpace c then some ([], c, cs) else none

/-- One match attempt of password[:\s=]+([^\s]+) (i flag) at the head of
the input: (matched text, captured group, rest) on success.  The class
[:\s=]+ is greedy; when it reaches the end of input it backtracks, and
[^\s]+ then matches the last non-space class character, provided at least
one class character remains before it. -/
def matchPw (l : List Char) : Option (List Char × List Char × List Char) :=
  match matchCI ['p', 'a', 's', 's', 'w', 'o', 'r', 'd'] l with
  | none => none
  | some (pw, rest1) =>
    let cls := spanP isPwClassChar rest1
    if cls.1.isEmpty then none
    else
      let tok := spanP (fun c => !isJsSpace c) cls.2
      if !tok.1.isEmpty then some (pw ++ cls.1 ++ tok.1, tok.1, tok.2)
      else
        match splitLastNonSpace cls.1 with
        | none => none
        | some (b, x, a) => if b.isEmpty then none else some (pw ++ b ++ [x], [x], a)

/-- startsWith on character lists. -/
def listStartsWith : List Char → List Char → Bool
  | [], _ => true
  | _ :: _, [] => false
  | a :: as, b :: bs => a == b && listStartsWith as bs

/-- String.prototype.replace with a string pattern: replace the first
occurrence of needle. -/
def replaceFirstSub (needle repl : List Char) : List Char → List Char
  | [] => []
  | c :: cs =>
    if listStartsWith needle (c :: cs) then repl ++ (c :: cs).drop needle.length
    else c :: replaceFirstSub needle repl cs

/-- Pass 3: each password-rule match is replaced by
match.replace(captured, "***") - the first occurrence of the captured
value inside the matched text. -/
def maskPwAux : Nat → List Char → List Char
  | 0, l => l
  | _ + 1, [] => []
  | fuel + 1, c :: cs =>
    match matchPw (c :: cs) with
    | some (m, cap, rest) => replaceFirstSub cap ['*', '*', '*'] m ++ maskPwAux fuel rest
    | none => c :: maskPwAux fuel cs

/-- One match attempt of \b(token[:\s=]+)([^\s]+) (i flag): (group 1, last
matched character, rest) on success. -/
def matchTok (prev : Option Char) (l : List Char) :
    Option (List Char × Char × List Char) :=
  if boundaryBefore prev then
    match matchCI ['t', 'o', 'k', 'e', 'n'] l with
    | none => none
    | some (tk, rest1) =>
      let cls := spanP isPwClassChar rest1
      if cls.1.isEmpty then none
      else
        let tok := spanP (fun c => !isJsSpace c) cls.2
        if !tok.1.isEmpty then some (tk ++ cls.1, tok.1.getLastD 'n', tok.2)
        else
          match splitLastNonSpace cls.1 with
          | none => none
          | some (b, x, a) => if b.isEmpty then none else some (tk ++ b, x, a)
  else none

/-- Pass 4: each token-rule match is replaced by prefix + "***" (the
captured value is dropped entirely). -/
def maskTokAux (prev : Option Char) : Nat → List Char → List Char
  | 0, l => l
  | _ + 1, [] => []
  | fuel + 1, c :: cs =>
    match matchTok prev (c :: cs) with
    | some (g1, lastc, rest) => g1 ++ ['*', '*', '*'] ++ maskTokAux (some lastc) fuel rest
    | none => c :: maskTokAux (some c) fuel cs

/-- Logger._maskSensitiveInfo: the four global replacements in order. -/
def maskSensitiveInfo (s : String) : String :=
  let m1 := maskSkAux none s.toList.length s.toList
  let m2 := maskLongAux none m1.length m1
  let m3 := maskPwAux m2.length m2
  let m4 := maskTokAux none m3.length m3
  String.mk m4

/-- Scanner collecting every match of the password rule in a string with
its captured value; the spec sentence "no persisted log message contains
an unmasked substring matching those sensitive patterns" is expressed with
it. -/
def pwMatches : Nat → List Char → List (List Char × List Char)
  | 0, _ => []
  | _ + 1, [] => []
  | fuel + 1, c :: cs =>
    match matchPw (c :: cs) with
    | some (m, cap, rest) => (m, cap) :: pwMatches fuel rest
    | none => pwMatches fuel cs

/-- Does the string still contain a password-pattern match whose value is
not the literal mask. -/
def hasUnmaskedPassword (s : String) : Bool :=
  (pwMatches s.toList.length s.toList).any (fun mc => !(mc.2 == ['*', '*', '*']))

structure LogEntry where
  timestamp : String
  category : String
  message : String
deriving DecidableEq

/-- The Logger instance together with its log file: encryptionKey is the
key loaned by the vault, file the decrypted content of the encrypted file
at logPath (none = file absent). -/
structure LoggerState where
  encryptionKey : Option DerivedKey
  file : Option (List LogEntry)
deriving DecidableEq

/-- this.maxLogEntries = 1000 -/
def maxLogEntries : Nat := 1000

/-- Logger._readLogs: [] without a key or without a file (a decryption
failure also yields [] in the source and is not represented: the modelled
file holds its plaintext). -/
def readLogs (st : LoggerState) : List LogEntry :=
  match st.encryptionKey with
  | none => []
  | some _ =>
    match st.file with
    | none => []
    | some l => l

/-- Logger._writeLogs: dropped with a warning when no key is set. -/
def writeLogs (st : LoggerState) (logs : List LogEntry) : LoggerState :=
  match st.encryptionKey with
  | none => st
  | some _ => { st with file := some logs }

/-- Logger.log(message, category): mask the message, append the entry,
truncate to the last maxLogEntries, persist. -/
def logMessage (st : LoggerState) (message category t : String) : LoggerState :=
  let entry : LogEntry := { timestamp := t, category := category,
                            message := maskSensitiveInfo message }
  let logs := readLogs st ++ [entry]
  let logs2 :=
    if logs.length > maxLogEntries then logs.drop (logs.length - maxLogEntries) else logs
  writeLogs st logs2

/-- Logger.getLogs: [] when the file does not exist, else _readLogs. -/
def getLogs (st : LoggerState) : List LogEntry :=
  match st.file with
  | none => []
  | some _ => readLogs st

/-- Logger.clearLogs: when the file exists, unlink it and immediately log
a fresh "Log file cleared" info entry. -/
def clearLogs (st : LoggerState) (t : String) : LoggerState :=
  match st.file with
  | none => st
  | some _ => logMessage { st with file := none } "Log file cleared" "info" t

theorem getLast_concat_drop {α : Type} (l : List α) (a : α) (n : Nat) (h : n ≤ l.length) :
    ((l ++ [a]).drop n).getLast? = some a := by
  rw [List.drop_append_of_le_length h]
  exact List.getLast?_concat _

/-- C9 counterexample input, masked. -/
theorem C9_masking_counterexample :
    maskSensitiveInfo "password: password: hunter" = "*** password: hunter" ∧
    (logMessage { encryptionKey := some (deriveKey "p" "s"), file := some [] }
        "password: password: hunter" "app" "t1").file =
      some [{ timestamp := "t1", category := "app", message := "*** password: hunter" }] ∧
    hasUnmaskedPassword "*** password: hunter" = true := by
  refine ⟨by decide, by decide, by decide⟩

/-- C9 (amended): every persisted entry's message is the input transformed
by the four masking passes in order, but the transformation does not
guarantee the absence of sensitive-pattern substrings: a password-pattern
match can survive, because the password rule replaces only the first
occurrence of the captured value inside each match and scanning resumes
after the match. -/
theorem C9_logger_masking (st : LoggerState) (m cat t : String) :
    (∀ key, st.encryptionKey = some key →
      ∃ l, (logMessage st m cat t).file = some l ∧
        l.getLast? = some { timestamp := t, category := cat,
                            message := maskSensitiveInfo m }) ∧
    (∃ m2 : String, hasUnmaskedPassword (maskSensitiveInfo m2) = true) := by
  constructor
  · intro key hk
    simp only [logMessage, writeLogs, hk]
    by_cases hlen : (readLogs st ++
        [({ timestamp := t, category := cat, message := maskSensitiveInfo m } : LogEntry)]).length >
        maxLogEntries
    · rw [if_pos hlen]
      refine ⟨_, rfl, ?_⟩
      apply getLast_concat_drop
      rw [List.length_append]
      simp only [List.length_cons, List.length_nil]
      have h1 : (1 : Nat) ≤ maxLogEntries := by norm_num [maxLogEntries]
      omega
    · rw [if_neg hlen]
      exact ⟨_, rfl, List.getLast?_concat _⟩
  · exact ⟨"password: password: hunter", by decide⟩

/-- C10: with an encryption key set and a log file present, clearLogs
deletes the file and immediately persists a fresh log holding exactly one
info entry "Log file cleared", which getLogs returns; with no key set,
clearLogs leaves no log file behind. -/
theorem C10_clearLogs (st : LoggerState) (t : String) :
    (∀ key l, st.encryptionKey = some key → st.file = some l →
      clearLogs st t = { encryptionKey := some key,
                         file := some [{ timestamp := t, category := "info",
                                         message := "Log file cleared" }] } ∧
      getLogs (clearLogs st t) = [{ timestamp := t, category := "info",
                                    message := "Log file cleared" }]) ∧
    (st.encryptionKey = none → (clearLogs st t).file = none) := by
  have hmask : maskSensitiveInfo "Log file cleared" = "Log file cleared" := by decide
  obtain ⟨k0, f0⟩ := st
  constructor
  · intro key l hk hf
    simp only at hk hf
    subst hk
    subst hf
    have hstep : clearLogs { encryptionKey := some key, file := some l } t =
        { encryptionKey := some key,
          file := some [{ timestamp := t, category := "info",
                          message := "Log file cleared" }] } := by
      simp only [clearLogs, logMessage, readLogs, writeLogs, List.nil_append, hmask]
      rw [if_neg]
      simp only [List.length_cons, List.length_nil, maxLogEntries]
      omega
    refine ⟨hstep, ?_⟩
    rw [hstep]
    simp [getLogs, readLogs]
  · intro hk
    simp only at hk
    subst hk
    cases f0 with
    | none => simp [clearLogs]
    | some l => simp [clearLogs, logMessage, readLogs, writeLogs]

/-- Witness for C10 at a concrete logger state. -/
theorem C10_clearLogs_witness :
    (clearLogs { encryptionKey := some (deriveKey "p" "s"),
                 file := some [{ timestamp := "t0", category := "app", message := "hi" }] }
        "t1" =
      { encryptionKey := some (deriveKey "p" "s"),
        file := some [{ timestamp := "t1", category := "info", message := "Log file cleared" }] } ∧
     getLogs (clearLogs { encryptionKey := some (deriveKey "p" "s"),
                          file := some [{ timestamp := "t0", category := "app",
                                          message := "hi" }] }
        "t1") = [{ timestamp := "t1", category := "info",
                   message := "Log file cleared" }]) ∧
    (clearLogs { encryptionKey := none,
                 file := some [{ timestamp := "t0", category := "app", message := "hi" }] }
        "t1").file = none := by
  constructor
  · exact (C10_clearLogs { encryptionKey := some (deriveKey "p" "s"),
                           file := some [{ timestamp := "t0", category := "app",
                                           message := "hi" }] } "t1").1
      (deriveKey "p" "s") [{ timestamp := "t0", category := "app", message := "hi" }] rfl rfl
  · exact (C10_clearLogs { encryptionKey := none,
                           file := some [{ timestamp := "t0", category := "app",
                                           message := "hi" }] } "t1").2 rfl

/-- Witness for C9 (amended) at a concrete logger state and message. -/
theorem C9_logger_masking_witness :
    (∃ l, (logMessage { encryptionKey := some (deriveKey "p" "s"), file := some [] }
        "password: password: hunter" "app" "t1").file = some l ∧
      l.getLast? = some { timestamp := "t1", category := "app",
                          message := maskSensitiveInfo "password: password: hunter" }) ∧
    (∃ m2 : String, hasUnmaskedPassword (maskSensitiveInfo m2) = true) := by
  constructor
  · exact (C9_logger_masking { encryptionKey := some (deriveKey "p" "s"), file := some [] }
      "password: password: hunter" "app" "t1").1 (deriveKey "p" "s") rfl
  · exact (C9_logger_masking { encryptionKey := some (deriveKey "p" "s"), file := some [] }
      "password: password: hunter" "app" "t1").2

/-! ## Loopback access server (src/modules/http-server.js) -/

/-- The view of one secret returned by Vault.getSecrets / Vault.getSecret
(history excluded; the legacy string form is returned as value with null
expiry and without timestamps). -/
structure SecretView where
  value : String
  expiresAt : Option String
  createdAt : Option String
  updatedAt : Option String
deriving DecidableEq

/-- The per-secret body of Vault.getSecrets and Vault.getSecret. -/
def secretView : Secret → SecretView
  | .legacy v => { value := v, expiresAt := none, createdAt := none, updatedAt := none }
  | .structured v e c u _ => { value := v, expiresAt := e, createdAt := c, updatedAt := u }

/-- Vault.getSecrets(projectName): mapping of every key to its view. -/
def getSecrets (doc : VaultDoc) (projectName : String) : Except VErr (JMap SecretView) :=
  match alookup doc.projects projectName with
  | none => .error (.projectNotFound projectName)
  | some proj => .ok (proj.secrets.map (fun p => (p.1, secretView p.2)))

/-- Vault.getSecret(projectName, key). -/
def getSecret (doc : VaultDoc) (projectName key : String) : Except VErr SecretView :=
  match alookup doc.projects projectName with
  | none => .error (.projectNotFound projectName)
  | some proj =>
    match alookup proj.secrets key with
    | none => .error (.secretNotFound key projectName)
    | some s => .ok (secretView s)

/-- One row of Vault.getProjects. -/
structure ProjectSummary where
  name : String
  secretCount : Nat
  createdAt : String
  updatedAt : String
deriving DecidableEq

/-- Vault.getProjects. -/
def getProjects (doc : VaultDoc) : List ProjectSummary :=
  doc.projects.map (fun p =>
    { name := p.1, secretCount := p.2.secrets.length,
      createdAt := p.2.createdAt, updatedAt := p.2.updatedAt })

/-- An ASCII apostrophe, written by code point to keep the error strings
of the source verbatim. -/
def squote : String := String.singleton (Char.ofNat 39)

/-- The message of the Error the vault throws for each failure kind
(interpolated as in the source). -/
def errMessage : VErr → String
  | .notInitialized => "Vault does not exist"
  | .invalidPassword => "Invalid password"
  | .locked => "Vault is locked"
  | .alreadyExists => "Vault already exists"
  | .projectNotFound n => "Project " ++ squote ++ n ++ squote ++ " does not exist"
  | .projectConflict n => "Project " ++ squote ++ n ++ squote ++ " already exists"
  | .secretNotFound k pn =>
      "Secret " ++ squote ++ k ++ squote ++ " does not exist in project " ++
        squote ++ pn ++ squote
  | .outOfRange i => "Invalid version index: " ++ toString i

/-- The result of the approval callback: { approved, reason? }. -/
structure ApprovalResult where
  approved : Bool
  reason : Option String
deriving DecidableEq

/-- One invocation of HttpServer.requestBatchApproval (projectName, keys,
action). -/
structure ApprovalCall where
  projectName : String
  keys : List String
  action : String
deriving DecidableEq

/-- The payload carried in a successful response. -/
inductive RData where
  | projectsList (ps : List ProjectSummary)
  | keysList (ks : List String)
  | secretsMap (m : JMap SecretView)
  | secretOne (s : SecretView)
  | statusData (isUnlocked : Bool) (version : String)
deriving DecidableEq

/-- The JSON body { success, data?, error? } returned by handleAction. -/
structure SResult where
  success : Bool
  data : Option RData
  error : Option String
deriving DecidableEq

/-- The server state handleAction reads: the isUnlocked flag, the vault
document, and the injected approval callback (modelled as a function; the
call list returned by handleAction records every invocation). -/
structure ServerCtx where
  isUnlocked : Bool
  vault : VaultDoc
  authToken : String
  approvalCb : String → List String → String → ApprovalResult

/-- A parsed request body action with its data fields. -/
inductive ActionReq where
  | listProjects
  | listSecretKeys (projectName : String)
  | getAllSecrets (projectName : String)
  | getBatchSecrets (projectName : String) (keys : List String)
  | getSecretA (projectName : String) (key : String)
  | setSecretA (projectName : String) (key : String) (value : String)
  | statusA
  | unknown
deriving DecidableEq

/-- The "Vault is locked" failure body. -/
def lockedResult : SResult := { success := false, data := none, error := some "Vault is locked" }

/-- The "Access denied" failure body built from an approval result
(reason || "User denied"). -/
def deniedResult (ar : ApprovalResult) : SResult :=
  { success := false, data := none,
    error := some ("Access denied: " ++ jsOrStr ar.reason "User denied") }

/-- HttpServer.handleAction(action, data): returns the response body, the
vault document afterwards, and the list of approval requests issued.
Vault errors are caught and surface as success:false with the error
message. -/
def handleAction (ctx : ServerCtx) (req : ActionReq) (now : String) :
    SResult × VaultDoc × List ApprovalCall :=
  match req with
  | .listProjects =>
    if ctx.isUnlocked = false then (lockedResult, ctx.vault, [])
    else ({ success := true, data := some (.projectsList (getProjects ctx.vault)),
            error := none }, ctx.vault, [])
  | .listSecretKeys pn =>
    if ctx.isUnlocked = false then (lockedResult, ctx.vault, [])
    else
      match getSecrets ctx.vault pn with
      | .error e => ({ success := false, data := none, error := some (errMessage e) },
          ctx.vault, [])
      | .ok secrets =>
        let keys := secrets.map (fun p => p.1)
        if keys.length = 0 then
          ({ success := true, data := some (.keysList []), error := none }, ctx.vault, [])
        else
          let ar := ctx.approvalCb pn keys "read"
          if ar.approved then
            ({ success := true, data := some (.keysList keys), error := none }, ctx.vault,
              [{ projectName := pn, keys := keys, action := "read" }])
          else
            (deniedResult ar, ctx.vault, [{ projectName := pn, keys := keys, action := "read" }])
  | .getAllSecrets pn =>
    if ctx.isUnlocked = false then (lockedResult, ctx.vault, [])
    else
      match getSecrets ctx.vault pn with
      | .error e => ({ success := false, data := none, error := some (errMessage e) },
          ctx.vault, [])
      | .ok secrets =>
        let keys := secrets.map (fun p => p.1)
        if keys.length = 0 then
          ({ success := true, data := some (.secretsMap []), error := none }, ctx.vault, [])
        else
          let ar := ctx.approvalCb pn keys "read"
          if ar.approved then
            ({ success := true, data := some (.secretsMap secrets), error := none }, ctx.vault,
              [{ projectName := pn, keys := keys, action := "read" }])
          else
            (deniedResult ar, ctx.vault, [{ projectName := pn, keys := keys, action := "read" }])
  | .getBatchSecrets pn keys =>
    if ctx.isUnlocked = false then (lockedResult, ctx.vault, [])
    else
      let ar := ctx.approvalCb pn keys "read"
      if ar.approved then
        let secrets := keys.foldl (fun acc k =>
          match getSecret ctx.vault pn k with
          | .ok v => aset acc k v
          | .error _ => acc) []
        ({ success := true, data := some (.secretsMap secrets), error := none }, ctx.vault,
          [{ projectName := pn, keys := keys, action := "read" }])
      else
        (deniedResult ar, ctx.vault, [{ projectName := pn, keys := keys, action := "read" }])
  | .getSecretA pn k =>
    if ctx.isUnlocked = false then (lockedResult, ctx.vault, [])
    else
      let ar := ctx.approvalCb pn [k] "read"
      if ar.approved then
        match getSecret ctx.vault pn k with
        | .ok v => ({ success := true, data := some (.secretOne v), error := none }, ctx.vault,
            [{ projectName := pn, keys := [k], action := "read" }])
        | .error e => ({ success := false, data := none, error := some (errMessage e) },
            ctx.vault, [{ projectName := pn, keys := [k], action := "read" }])
      else
        (deniedResult ar, ctx.vault, [{ projectName := pn, keys := [k], action := "read" }])
  | .setSecretA pn k v =>
    if ctx.isUnlocked = false then (lockedResult, ctx.vault, [])
    else
      let ar := ctx.approvalCb pn [k] "write"
      if ar.approved then
        match setSecret ctx.vault pn k v none now with
        | .ok doc1 => ({ success := true, data := none, error := none }, doc1,
            [{ projectName := pn, keys := [k], action := "write" }])
        | .error e => ({ success := false, data := none, error := some (errMessage e) },
            ctx.vault, [{ projectName := pn, keys := [k], action := "write" }])
      else
        (deniedResult ar, ctx.vault, [{ projectName := pn, keys := [k], action := "write" }])
  | .statusA =>
    ({ success := true, data := some (.statusData ctx.isUnlocked "1.0.0"), error := none },
      ctx.vault, [])
  | .unknown =>
    ({ success := false, data := none, error := some "Unknown action" }, ctx.vault, [])

/-- A received HTTP request as handleRequest sees it: the method, the
Authorization header, the total body size in bytes, and the JSON-parsed
body (none = JSON.parse throws). -/
structure HttpReq where
  method : String
  authorization : Option String
  bodyLen : Nat
  body : Option ActionReq

/-- The transport-level outcome of HttpServer.handleRequest. -/
inductive HttpOutcome where
  | options200
  | methodNotAllowed
  | authRequired
  | invalidToken
  | tooLarge
  | invalidJson
  | ok (r : SResult)
deriving DecidableEq

/-- The HTTP status code written for each outcome. -/
def outcomeStatus : HttpOutcome → Nat
  | .options200 => 200
  | .methodNotAllowed => 405
  | .authRequired => 401
  | .invalidToken => 401
  | .tooLarge => 413
  | .invalidJson => 500
  | .ok _ => 200

/-- MAX_BODY_SIZE = 1024 * 1024 (parseRequestBody). -/
def MAX_BODY_SIZE : Nat := 1024 * 1024

/-- HttpServer.handleRequest: OPTIONS preflight answered 200 before the
method check; other non-POST methods rejected 405; bearer auth checked
with a constant-time comparison (401); the body capped at 1 MiB (413);
JSON parse failure 500; otherwise the action is dispatched and the body
answered with status 200. -/
def handleRequest (ctx : ServerCtx) (req : HttpReq) (now : String) :
    HttpOutcome × VaultDoc × List ApprovalCall :=
  if req.method = "OPTIONS" then (.options200, ctx.vault, [])
  else if req.method ≠ "POST" then (.methodNotAllowed, ctx.vault, [])
  else
    match req.authorization with
    | none => (.authRequired, ctx.vault, [])
    | some h =>
      if !(h.startsWith "Bearer ") then (.authRequired, ctx.vault, [])
      else if h.drop 7 ≠ ctx.authToken then (.invalidToken, ctx.vault, [])
      else if req.bodyLen > MAX_BODY_SIZE then (.tooLarge, ctx.vault, [])
      else
        match req.body with
        | none => (.invalidJson, ctx.vault, [])
        | some act =>
          let r := handleAction ctx act now
          (.ok r.1, r.2.1, r.2.2)

/-- Which actions are data actions (they require the unlocked state). -/
def isDataAction : ActionReq → Bool
  | .listProjects => true
  | .listSecretKeys _ => true
  | .getAllSecrets _ => true
  | .getBatchSecrets _ _ => true
  | .getSecretA _ _ => true
  | .setSecretA _ _ _ => true
  | .statusA => false
  | .unknown => false

/-- An always-denying approval callback, for concrete runs. -/
def denyCb : String → List String → String → ApprovalResult :=
  fun _ _ _ => { approved := false, reason := some "User denied" }

/-- An always-approving approval callback, for concrete runs. -/
def approveCb : String → List String → String → ApprovalResult :=
  fun _ _ _ => { approved := true, reason := none }

/-- An unlocked server over the sample document whose approvals are
denied. -/
def ctxDeny : ServerCtx :=
  { isUnlocked := true, vault := sampleDoc, authToken := "tok", approvalCb := denyCb }

/-- An unlocked server over the sample document whose approvals are
granted. -/
def ctxApprove : ServerCtx :=
  { isUnlocked := true, vault := sampleDoc, authToken := "tok", approvalCb := approveCb }

/-- A locked server over the sample document. -/
def ctxLocked : ServerCtx :=
  { isUnlocked := false, vault := sampleDoc, authToken := "tok", approvalCb := denyCb }

/-- C6: while the server flag is locked, every data action answers
success:false with exactly "Vault is locked", leaves the vault document
untouched and requests no approval; status answers {isUnlocked, version}
with no approval and no unlocked requirement. -/
theorem C6_locked_actions (ctx : ServerCtx) (req : ActionReq) (now : String) :
    (ctx.isUnlocked = false → isDataAction req = true →
      handleAction ctx req now = (lockedResult, ctx.vault, [])) ∧
    lockedResult = { success := false, data := none, error := some "Vault is locked" } ∧
    handleAction ctx .statusA now =
      ({ success := true, data := some (.statusData ctx.isUnlocked "1.0.0"), error := none },
        ctx.vault, []) := by
  refine ⟨?_, rfl, rfl⟩
  intro hl hd
  cases req <;> simp_all [handleAction, isDataAction]

/-- Witness for C6 at the locked sample server. -/
theorem C6_locked_actions_witness :
    handleAction ctxLocked (.getSecretA "app" "K") "t1" = (lockedResult, sampleDoc, []) ∧
    handleAction ctxLocked .statusA "t1" =
      ({ success := true, data := some (.statusData false "1.0.0"), error := none },
        sampleDoc, []) := by
  constructor
  · exact (C6_locked_actions ctxLocked (.getSecretA "app" "K") "t1").1 rfl rfl
  · exact (C6_locked_actions ctxLocked .statusA "t1").2.2

/-- C5 counterexample: getBatchSecrets with an empty key list does request
an approval (over the empty set) instead of skipping it, and with the
approval denied it does not return an empty success result. -/
theorem C5_getBatchSecrets_empty_counterexample :
    handleAction ctxDeny (.getBatchSecrets "app" []) "t1" =
      ({ success := false, data := none, error := some "Access denied: User denied" },
        sampleDoc, [{ projectName := "app", keys := [], action := "read" }]) ∧
    [({ projectName := "app", keys := [], action := "read" } : ApprovalCall)] ≠ [] := by
  refine ⟨rfl, by decide⟩

/-- C5 (amended): for listSecretKeys and getAllSecrets an empty key set
skips the approval and returns an empty success result, and a non-empty
key set triggers exactly one read approval over all keys before any data
is returned; getSecret requests exactly one read approval over [key];
getBatchSecrets requests exactly one read approval over the requested
keys even when that list is empty (returning an empty map when
approved). -/
theorem C5_read_actions_approval (ctx : ServerCtx) (pn k : String) (keys : List String)
    (now : String) (proj : Project)
    (hU : ctx.isUnlocked = true) (hp : alookup ctx.vault.projects pn = some proj) :
    (proj.secrets = [] →
      handleAction ctx (.listSecretKeys pn) now =
        ({ success := true, data := some (.keysList []), error := none }, ctx.vault, []) ∧
      handleAction ctx (.getAllSecrets pn) now =
        ({ success := true, data := some (.secretsMap []), error := none }, ctx.vault, [])) ∧
    (proj.secrets ≠ [] →
      (handleAction ctx (.listSecretKeys pn) now).2.2 =
        [{ projectName := pn, keys := proj.secrets.map (fun p => p.1), action := "read" }] ∧
      (handleAction ctx (.getAllSecrets pn) now).2.2 =
        [{ projectName := pn, keys := proj.secrets.map (fun p => p.1), action := "read" }] ∧
      ((ctx.approvalCb pn (proj.secrets.map (fun p => p.1)) "read").approved = true →
        handleAction ctx (.listSecretKeys pn) now =
          ({ success := true, data := some (.keysList (proj.secrets.map (fun p => p.1))),
             error := none }, ctx.vault,
            [{ projectName := pn, keys := proj.secrets.map (fun p => p.1),
               action := "read" }]))) ∧
    (handleAction ctx (.getSecretA pn k) now).2.2 =
      [{ projectName := pn, keys := [k], action := "read" }] ∧
    (handleAction ctx (.getBatchSecrets pn keys) now).2.2 =
      [{ projectName := pn, keys := keys, action := "read" }] ∧
    ((ctx.approvalCb pn [] "read").approved = true →
      handleAction ctx (.getBatchSecrets pn []) now =
        ({ success := true, data := some (.secretsMap []), error := none }, ctx.vault,
          [{ projectName := pn, keys := [], action := "read" }])) := by
  have hks : getSecrets ctx.vault pn =
      .ok (proj.secrets.map (fun p => (p.1, secretView p.2))) := by
    simp [getSecrets, hp]
  have hmm : (proj.secrets.map (fun p => (p.1, secretView p.2))).map (fun p => p.1) =
      proj.secrets.map (fun p => p.1) := by
    rw [List.map_map]
    rfl
  refine ⟨?_, ?_, ?_, ?_, ?_⟩
  · intro hempty
    constructor
    · simp [handleAction, hU, hks, hempty]
    · simp [handleAction, hU, hks, hempty]
  · intro hne
    have hlen : ¬ ((proj.secrets.map (fun p => (p.1, secretView p.2))).map
        (fun p => p.1)).length = 0 := by
      rw [hmm, List.length_map]
      intro hc
      exact hne (List.eq_nil_of_length_eq_zero hc)
    refine ⟨?_, ?_, ?_⟩
    · by_cases hb : (ctx.approvalCb pn (proj.secrets.map (fun p => p.1)) "read").approved = true
      · simp [handleAction, hU, hks, hlen, hmm, hb, hne]
      · simp [handleAction, hU, hks, hlen, hmm, hb, hne]
    · by_cases hb : (ctx.approvalCb pn (proj.secrets.map (fun p => p.1)) "read").approved = true
      · simp [handleAction, hU, hks, hlen, hmm, hb, hne]
      · simp [handleAction, hU, hks, hlen, hmm, hb, hne]
    · intro hb
      simp [handleAction, hU, hks, hlen, hmm, hb, hne]
  · by_cases hb : (ctx.approvalCb pn [k] "read").approved = true
    · cases hg : getSecret ctx.vault pn k <;> simp [handleAction, hU, hb, hg]
    · simp [handleAction, hU, hb]
  · by_cases hb : (ctx.approvalCb pn keys "read").approved = true
    · simp [handleAction, hU, hb]
    · simp [handleAction, hU, hb]
  · intro hb
    simp [handleAction, hU, hb]

/-- C7 (amended): every request whose method is neither POST nor OPTIONS
is answered 405; OPTIONS is answered 200 (CORS preflight). -/
theorem C7_non_post_405 (ctx : ServerCtx) (req : HttpReq) (now : String)
    (h1 : req.method ≠ "POST") (h2 : req.method ≠ "OPTIONS") :
    (handleRequest ctx req now).1 = .methodNotAllowed ∧
    outcomeStatus (handleRequest ctx req now).1 = 405 := by
  have hr : handleRequest ctx req now = (.methodNotAllowed, ctx.vault, []) := by
    rw [handleRequest, if_neg h2, if_pos h1]
  rw [hr]
  exact ⟨rfl, rfl⟩

/-- C7 counterexample: an OPTIONS request (not POST) is answered with
status 200, not 405. -/
theorem C7_options_counterexample :
    "OPTIONS" ≠ "POST" ∧
    (handleRequest ctxDeny
      { method := "OPTIONS", authorization := none, bodyLen := 0, body := none } "t1").1 =
      .options200 ∧
    outcomeStatus .options200 = 200 ∧ (200 : Nat) ≠ 405 := by
  refine ⟨by decide, rfl, rfl, by decide⟩

/-- Witness for C7 (amended) on a GET request. -/
theorem C7_non_post_405_witness :
    (handleRequest ctxDeny
      { method := "GET", authorization := none, bodyLen := 0, body := none } "t1").1 =
      .methodNotAllowed ∧
    outcomeStatus (handleRequest ctxDeny
      { method := "GET", authorization := none, bodyLen := 0, body := none } "t1").1 = 405 :=
  C7_non_post_405 ctxDeny
    { method := "GET", authorization := none, bodyLen := 0, body := none } "t1"
    (by decide) (by decide)

/-- Witness for C5 (amended) at the sample servers: the empty project
skips approval, the non-empty project requests one approval over its
keys, getSecret and getBatchSecrets request exactly one approval each. -/
theorem C5_read_actions_approval_witness :
    (handleAction ctxDeny (.listSecretKeys "empty") "t1" =
       ({ success := true, data := some (.keysList []), error := none }, sampleDoc, []) ∧
     handleAction ctxDeny (.getAllSecrets "empty") "t1" =
       ({ success := true, data := some (.secretsMap []), error := none }, sampleDoc, [])) ∧
    (handleAction ctxApprove (.listSecretKeys "app") "t1" =
       ({ success := true, data := some (.keysList ["K"]), error := none }, sampleDoc,
         [{ projectName := "app", keys := ["K"], action := "read" }])) ∧
    (handleAction ctxDeny (.getSecretA "app" "K") "t1").2.2 =
      [{ projectName := "app", keys := ["K"], action := "read" }] ∧
    (handleAction ctxDeny (.getBatchSecrets "app" ["K", "MISSING"]) "t1").2.2 =
      [{ projectName := "app", keys := ["K", "MISSING"], action := "read" }] ∧
    handleAction ctxApprove (.getBatchSecrets "app" []) "t1" =
      ({ success := true, data := some (.secretsMap []), error := none }, sampleDoc,
        [{ projectName := "app", keys := [], action := "read" }]) := by
  refine ⟨(C5_read_actions_approval ctxDeny "empty" "K" [] "t1" emptyProject rfl rfl).1 rfl,
    ?_, (C5_read_actions_approval ctxDeny "app" "K" [] "t1" sampleProject rfl rfl).2.2.1,
    (C5_read_actions_approval ctxDeny "app" "K" ["K", "MISSING"] "t1" sampleProject
      rfl rfl).2.2.2.1,
    (C5_read_actions_approval ctxApprove "app" "K" [] "t1" sampleProject rfl rfl).2.2.2.2 rfl⟩
  exact ((C5_read_actions_approval ctxApprove "app" "K" [] "t1" sampleProject rfl rfl).2.1
    (by decide)).2.2 rfl

/-! ## License verifier (src/modules/license.js) -/

/-- A parsed licence object; beyond product, its fields are carried
through unchanged by checkLocalLicense. -/
structure Licence where
  product : String
  payload : List (String × String)
deriving DecidableEq

/-- The state of license.json as checkLocalLicense observes it: file
absent, file not parseable as JSON (JSON.parse throws and the outer catch
answers), or parsed with its two fields (none models a missing or falsy
field). -/
inductive LicenseFile where
  | absent
  | unparseable
  | parsed (licence : Option Licence) (signature : Option String)
deriving DecidableEq

/-- The { valid, reason?, licence? } result of checkLocalLicense. -/
structure LicResult where
  valid : Bool
  reason : Option String
  licence : Option Licence
deriving DecidableEq

/-- License.checkLocalLicense.  The verify parameter abstracts
License.verifySignature, which is Ed25519 verification through the Node
crypto library against the compiled-in public key and lies outside the
embedded code. -/
def checkLocalLicense (verify : Licence → String → Bool) (file : LicenseFile) : LicResult :=
  match file with
  | .absent => { valid := false, reason := some "no_local_license", licence := none }
  | .unparseable => { valid := false, reason := some "error", licence := none }
  | .parsed olic osig =>
    match olic, osig with
    | some licence, some sig =>
      if !(verify licence sig) then
        { valid := false, reason := some "invalid_signature", licence := none }
      else if licence.product ≠ "localkeys" then
        { valid := false, reason := some "invalid_product", licence := none }
      else { valid := true, reason := none, licence := some licence }
    | _, _ => { valid := false, reason := some "invalid_license_format", licence := none }

/-- C8 (amended): checkLocalLicense answers no_local_license for an absent
file; reason "error" (not invalid_license_format) for a file that fails to
parse; invalid_license_format for a parsed file missing licence or
signature; invalid_signature when verification fails; invalid_product when
the product differs from "localkeys"; and valid with the licence
otherwise - the checks applied in that order. -/
theorem C8_checkLocalLicense (verify : Licence → String → Bool) (lic : Licence)
    (sig : String) (olic : Option Licence) (osig : Option String) :
    checkLocalLicense verify .absent =
      { valid := false, reason := some "no_local_license", licence := none } ∧
    checkLocalLicense verify .unparseable =
      { valid := false, reason := some "error", licence := none } ∧
    (olic = none ∨ osig = none →
      checkLocalLicense verify (.parsed olic osig) =
        { valid := false, reason := some "invalid_license_format", licence := none }) ∧
    (verify lic sig = false →
      checkLocalLicense verify (.parsed (some lic) (some sig)) =
        { valid := false, reason := some "invalid_signature", licence := none }) ∧
    (verify lic sig = true → lic.product ≠ "localkeys" →
      checkLocalLicense verify (.parsed (some lic) (some sig)) =
        { valid := false, reason := some "invalid_product", licence := none }) ∧
    (verify lic sig = true → lic.product = "localkeys" →
      checkLocalLicense verify (.parsed (some lic) (some sig)) =
        { valid := true, reason := none, licence := some lic }) := by
  refine ⟨rfl, rfl, ?_, ?_, ?_, ?_⟩
  · rintro (rfl | rfl)
    · cases osig <;> rfl
    · cases olic <;> rfl
  · intro hv
    simp [checkLocalLicense, hv]
  · intro hv hp
    simp [checkLocalLicense, hv, hp]
  · intro hv hp
    simp [checkLocalLicense, hv, hp]

/-- C8 counterexample: a malformed (unparseable) license file is answered
with reason "error" by the outer catch, not invalid_license_format. -/
theorem C8_unparseable_counterexample :
    checkLocalLicense (fun _ _ => true) .unparseable =
      { valid := false, reason := some "error", licence := none } ∧
    (some "error" : Option String) ≠ some "invalid_license_format" :=
  ⟨rfl, by decide⟩

/-- A sample licence for the configured product tag. -/
def sampleLicence : Licence := { product := "localkeys", payload := [("user", "u1")] }

/-- Witness for C8 (amended) at concrete files and verifiers. -/
theorem C8_checkLocalLicense_witness :
    checkLocalLicense (fun _ _ => false) (.parsed none (some "s")) =
      { valid := false, reason := some "invalid_license_format", licence := none } ∧
    checkLocalLicense (fun _ _ => false) (.parsed (some sampleLicence) (some "s")) =
      { valid := false, reason := some "invalid_signature", licence := none } ∧
    checkLocalLicense (fun _ _ => true)
        (.parsed (some { product := "other", payload := [] }) (some "s")) =
      { valid := false, reason := some "invalid_product", licence := none } ∧
    checkLocalLicense (fun _ _ => true) (.parsed (some sampleLicence) (some "s")) =
      { valid := true, reason := none, licence := some sampleLicence } := by
  refine ⟨?_, ?_, ?_, ?_⟩
  · exact (C8_checkLocalLicense (fun _ _ => false) sampleLicence "s" none
      (some "s")).2.2.1 (Or.inl rfl)
  · exact (C8_checkLocalLicense (fun _ _ => false) sampleLicence "s" none
      none).2.2.2.1 rfl
  · exact (C8_checkLocalLicense (fun _ _ => true) { product := "other", payload := [] }
      "s" none none).2.2.2.2.1 rfl (by decide)
  · exact (C8_checkLocalLicense (fun _ _ => true) sampleLicence "s" none
      none).2.2.2.2.2 rfl rfl
